import Mathlib

/-!
Verification development for the bank financial-data ingestion core
(tushare_data_fetcher.py and collaborators).

The embedding models:
  - stored rows of a MySQL table keyed by a unique business key;
  - the INSERT IGNORE write path (mysql_insert_ignore, used for t_dividend);
  - the INSERT ... ON DUPLICATE KEY UPDATE write path (mysql_insert_update,
    used for t_income / t_balancesheet / t_fina_indicator), whose per-column
    update expression is
      k = IF(VALUES(update_flag) = 1, VALUES(k), k)   when update_flag is a column
      k = VALUES(k)                                   otherwise;
  - the pandas to_sql transport (chunksize=5000, one transaction per call,
    rollback on any statement error, per the storage contract);
  - the fetch_and_save_data cell worker (update_flag fillna(0) normalization,
    try/except swallowing cell errors, finally time.sleep) and the run_fetcher
    driver loop over banks x API list.

MySQL processes the rows of one multi-row INSERT statement sequentially in
value-list order, so a batch write is a left fold of the per-row conflict
action over the rows.
-/

namespace BankFetch

/-- One stored row of a target table: the business key (composite key columns
collapsed to one value), the non-key data columns, and the update_flag column
(meaningful only for tables whose schema carries it; 0 elsewhere). Column
values are modelled as integers, matching the fillna(0).astype(int)
normalization applied to update_flag before writing. -/
structure SRow where
  key : Int
  fields : List Int
  flag : Int
deriving Repr, DecidableEq

/-- One fetched DataFrame row before writing: the business key cell may be
missing (None/NaN, modelled as none), and the update_flag cell may be missing
(NaN, modelled as none). -/
structure Row where
  key : Option Int
  fields : List Int
  flag : Option Int
deriving Repr, DecidableEq

/-- A fetched DataFrame: whether update_flag is among df.columns, and the rows. -/
structure Frame where
  hasFlag : Bool
  rows : List Row
deriving Repr, DecidableEq

/-- The keys currently present in a table (the unique-key index). -/
def keysOf (t : List SRow) : List Int :=
  t.map SRow.key

/-- First stored row with the given business key, if any. The storage engine
keeps keys unique, but the model does not need that assumption: lookups read
the first match. -/
def lookupRow (k : Int) : List SRow → Option SRow
  | [] => none
  | r :: rest => if r.key = k then some r else lookupRow k rest

/-- Per-row action of INSERT IGNORE: on a duplicate business key the incoming
row is dropped and the table is untouched; otherwise the row is inserted. -/
def insertIgnoreRow (t : List SRow) (r : SRow) : List SRow :=
  if t.any (fun o => o.key == r.key) then t else t ++ [r]

/-- Method A (mysql_insert_ignore, used for t_dividend): INSERT IGNORE INTO
applied to a batch of rows, processed in order. -/
def mysql_insert_ignore (t : List SRow) (batch : List SRow) : List SRow :=
  batch.foldl insertIgnoreRow t

/-- One column of the ON DUPLICATE KEY UPDATE clause for a table that has
update_flag: the SQL expression IF(VALUES(update_flag) = 1, VALUES(k), k),
taking the incoming value exactly when the incoming update_flag is 1. -/
def mergeCol (vflag : Int) (vnew vold : Int) : Int :=
  if vflag = 1 then vnew else vold

/-- Row-level effect of the ON DUPLICATE KEY UPDATE clause on a table with
update_flag: every column - the key columns, the data columns and update_flag
itself - goes through the same mergeCol decision driven by the incoming
update_flag (the special case for the update_flag column is commented out in
the source). -/
def mergeFlagged (incoming existing : SRow) : SRow :=
  { key := mergeCol incoming.flag incoming.key existing.key
    fields := List.zipWith (mergeCol incoming.flag) incoming.fields existing.fields
    flag := mergeCol incoming.flag incoming.flag existing.flag }

/-- Per-row action of INSERT ... ON DUPLICATE KEY UPDATE: insert when the key
is new; on a duplicate key, rewrite the conflicting stored row with the
per-column update expressions (conditional when the schema has update_flag,
plain k = VALUES(k) full overwrite otherwise). -/
def insertUpdateRow (has_update_flag : Bool) : List SRow → SRow → List SRow
  | [], r => [r]
  | old :: rest, r =>
    if old.key = r.key then
      (if has_update_flag then mergeFlagged r old else r) :: rest
    else
      old :: insertUpdateRow has_update_flag rest r

/-- Method B (mysql_insert_update, used for t_income / t_balancesheet /
t_fina_indicator): INSERT ... ON DUPLICATE KEY UPDATE applied to a batch of
rows, processed in order; has_update_flag mirrors the source check
update_flag in keys. -/
def mysql_insert_update (has_update_flag : Bool) (t : List SRow) (batch : List SRow) :
    List SRow :=
  batch.foldl (insertUpdateRow has_update_flag) t

/-- Splitting a row list into consecutive chunks of at most n rows, as
df.to_sql does with chunksize=n. (When n = 0 the whole list is one chunk, a
guard the source never exercises: chunksize is the constant 5000.) -/
def chunksOf (n : Nat) (l : List Row) : List (List Row) :=
  if l = [] then []
  else if n = 0 then [l]
  else l.take n :: chunksOf n (l.drop n)
termination_by l.length
decreasing_by
  simp only [List.length_drop]
  have hl : 0 < l.length := List.length_pos.mpr (by assumption)
  have hn : 0 < n := Nat.pos_of_ne_zero (by assumption)
  omega

/-- Conversion of one DataFrame row to the SQL parameter row; a missing
business key has no valid parameter value (the key column is NOT NULL in the
schema). The update_flag cell defaults to 0, matching fillna(0). -/
def toSRow (r : Row) : Option SRow :=
  r.key.map (fun k => { key := k, fields := r.fields, flag := r.flag.getD 0 })

/-- Conversion of one DataFrame row to the values MySQL actually stores when
the IGNORE modifier is in force: a NULL in the NOT NULL business-key column
is downgraded to a warning and replaced by the column's implicit default
(0 in this integer model); the update_flag cell likewise defaults to 0. -/
def toSRowDefault (r : Row) : SRow :=
  { key := r.key.getD 0, fields := r.fields, flag := r.flag.getD 0 }

/-- One INSERT IGNORE statement over one chunk (method A): the IGNORE
modifier downgrades the NULL-in-NOT-NULL-key error to a warning and inserts
the implicit default instead, so the statement never fails on a missing
business key - the chunk is written normally. -/
def mysql_insert_ignore_stmt (t : List SRow) (chunk : List Row) :
    Except Unit (List SRow) :=
  Except.ok (mysql_insert_ignore t (chunk.map toSRowDefault))

/-- One INSERT ... ON DUPLICATE KEY UPDATE statement over one chunk
(method B): a NULL value for the NOT NULL business-key column raises
ER_BAD_NULL_ERROR, the statement fails, and InnoDB statement atomicity wipes
any rows the statement had touched. -/
def mysql_insert_update_stmt (has_update_flag : Bool) (t : List SRow)
    (chunk : List Row) : Except Unit (List SRow) :=
  if chunk.any (fun r => r.key = none) then Except.error ()
  else Except.ok (mysql_insert_update has_update_flag t (chunk.filterMap toSRow))

/-- df.to_sql with chunksize=5000 and a custom method: the chunks are fed to
the method statement by statement, all inside one transaction on the storage
engine (SQLTable.insert wraps the chunk loop in a single run_transaction
scope), so the first statement error aborts the call and rolls the whole
transaction back - the caller then observes the original table. The chunk
transport is the only thing this function adds over the method itself. -/
def to_sql (method : List SRow → List Row → Except Unit (List SRow))
    (t : List SRow) (rows : List Row) : Except Unit (List SRow) :=
  (chunksOf 5000 rows).foldlM method t

/-- The four Tushare interfaces of TS_API_LIST, in catalog order. -/
inductive Api where
  | income
  | balancesheet
  | fina_indicator
  | dividend
deriving Repr, DecidableEq

/-- TS_API_LIST: the record types processed for each bank, in order. -/
def TS_API_LIST : List Api := [Api.income, Api.balancesheet, Api.fina_indicator, Api.dividend]

/-- The database: one table per Tushare interface (TABLE_MAPPING). -/
structure DB where
  t_income : List SRow
  t_balancesheet : List SRow
  t_fina_indicator : List SRow
  t_dividend : List SRow
deriving Repr, DecidableEq

/-- Target table of an interface (TABLE_MAPPING lookup). -/
def DB.table (db : DB) : Api → List SRow
  | Api.income => db.t_income
  | Api.balancesheet => db.t_balancesheet
  | Api.fina_indicator => db.t_fina_indicator
  | Api.dividend => db.t_dividend

/-- Replace the target table of an interface. -/
def DB.setTable (db : DB) : Api → List SRow → DB
  | Api.income, t => { db with t_income := t }
  | Api.balancesheet, t => { db with t_balancesheet := t }
  | Api.fina_indicator, t => { db with t_fina_indicator := t }
  | Api.dividend, t => { db with t_dividend := t }

/-- Write-method selection in fetch_and_save_data: dividend batches go through
INSERT IGNORE, every other interface through ON DUPLICATE KEY UPDATE, whose
has_update_flag test reads the columns of the frame being written. -/
def write_method (api : Api) (hasFlag : Bool) :
    List SRow → List Row → Except Unit (List SRow) :=
  match api with
  | Api.dividend => mysql_insert_ignore_stmt
  | _ => mysql_insert_update_stmt hasFlag

/-- The update_flag normalization in fetch_and_save_data: when update_flag is
among df.columns, fillna(0).astype(int) turns every missing marker cell into
the integer 0 and leaves present values alone. -/
def normalizeFlag (f : Frame) : Frame :=
  if f.hasFlag then
    { f with rows := f.rows.map (fun r => { r with flag := some (r.flag.getD 0) }) }
  else f

/-- Observable suspension points of one run: issuing an external fetch for a
cell, and the fixed rate-limit pause time.sleep(0.1). -/
inductive Ev where
  | fetchEv (code : Int) (api : Api)
  | sleepEv
deriving Repr, DecidableEq

/-- Outcome recorded for one (bank, interface) cell. -/
inductive CellResult where
  | done
  | skippedEmpty
  | failed
deriving Repr, DecidableEq

/-- A fetch collaborator: for a cell it either returns a materialized frame or
raises (FetchError and kin), modelled as Except. -/
def FetchOracle : Type := Int → Api → Except Unit Frame

/-- fetch_and_save_data: issue the external fetch for the cell, return early
on an empty frame, normalize update_flag, and write through to_sql with the
method chosen for the interface. Both the fetch call and the database write
sit inside a try whose except blocks swallow the exception (the cell merely
fails), and whose finally always sleeps before the function returns - so
every branch ends with the rate-limit pause event. -/
def fetch_and_save_data (fetch : FetchOracle) (db : DB) (ts_code : Int) (api : Api) :
    DB × CellResult × List Ev :=
  match fetch ts_code api with
  | Except.error _ => (db, CellResult.failed, [Ev.fetchEv ts_code api, Ev.sleepEv])
  | Except.ok df =>
    if df.rows.isEmpty then
      (db, CellResult.skippedEmpty, [Ev.fetchEv ts_code api, Ev.sleepEv])
    else
      let df1 := normalizeFlag df
      match to_sql (write_method api df1.hasFlag) (db.table api) df1.rows with
      | Except.error _ => (db, CellResult.failed, [Ev.fetchEv ts_code api, Ev.sleepEv])
      | Except.ok t1 =>
        (db.setTable api t1, CellResult.done, [Ev.fetchEv ts_code api, Ev.sleepEv])

/-- The inner/outer loops of run_fetcher flattened: the cross product of bank
codes (registry order) and TS_API_LIST (catalog order). -/
def crossCells (codes : List Int) : List (Int × Api) :=
  (codes.map (fun c => TS_API_LIST.map (fun a => (c, a)))).flatten

/-- Sequential processing of a list of cells, threading the database and
collecting per-cell results and the event trace. -/
def runCells (fetch : FetchOracle) : DB → List (Int × Api) →
    DB × List ((Int × Api) × CellResult) × List Ev
  | db, [] => (db, [], [])
  | db, c :: rest =>
    let step := fetch_and_save_data fetch db c.1 c.2
    let tail := runCells fetch step.1 rest
    (tail.1, (c, step.2.1) :: tail.2.1, step.2.2 ++ tail.2.2)

/-- get_bank_codes: SELECT stock_code FROM banks, with the whole body inside a
try/except that prints the failure and returns an empty list - a registry
error is absorbed into the empty result, indistinguishable from an empty
banks table. -/
def get_bank_codes (registry : Except Unit (List Int)) : List Int :=
  match registry with
  | Except.error _ => []
  | Except.ok codes => codes

/-- Outcome of one driver run: the process exit code, the per-cell results in
processing order, the suspension-point trace, and the final database. -/
structure RunOutcome where
  exitCode : Nat
  results : List ((Int × Api) × CellResult)
  trace : List Ev
  db : DB
deriving Repr, DecidableEq

/-- run_fetcher: configuration loading, Tushare client construction, engine
construction and the SELECT 1 connection test form the initialization block;
any failure there hits sys.exit(1). Then get_bank_codes is consulted; an
empty code list (a swallowed registry error included) hits sys.exit(0) before
any cell is processed. Otherwise every cell of the cross product is processed
and the script falls off the end of main, exit code 0. -/
def run_fetcher (initOk : Bool) (registry : Except Unit (List Int))
    (fetch : FetchOracle) (db : DB) : RunOutcome :=
  if initOk = false then
    { exitCode := 1, results := [], trace := [], db := db }
  else
    let bank_codes := get_bank_codes registry
    if bank_codes.isEmpty then
      { exitCode := 0, results := [], trace := [], db := db }
    else
      let out := runCells fetch db (crossCells bank_codes)
      { exitCode := 0, results := out.2.1, trace := out.2.2, db := out.1 }

/-- Re-ingesting the same batch n times through INSERT IGNORE (the iteration
the idempotence guarantee quantifies over). -/
def iterateIngest : Nat → List SRow → List SRow → List SRow
  | 0, t, _ => t
  | n + 1, t, b => iterateIngest n (mysql_insert_ignore t b) b

/-- A database whose four target tables are empty. -/
def emptyDB : DB :=
  { t_income := [], t_balancesheet := [], t_fina_indicator := [], t_dividend := [] }

/-- A fetch collaborator that raises on every cell. -/
def failFetch : FetchOracle := fun _ _ => Except.error ()

/-- A fetch collaborator that raises exactly on the (bank 1, income) cell and
returns an empty frame everywhere else. -/
def oneCellFails : FetchOracle := fun code api =>
  if code = 1 ∧ api = Api.income then Except.error ()
  else Except.ok { hasFlag := false, rows := [] }

/-- A ten-row frame in which exactly one row (the fifth) is missing its
business key. -/
def frameOneBad : Frame :=
  { hasFlag := true
    rows :=
      [{ key := some 100, fields := [100], flag := some 1 },
       { key := some 101, fields := [101], flag := some 0 },
       { key := some 102, fields := [102], flag := some 1 },
       { key := some 103, fields := [103], flag := none },
       { key := none, fields := [104], flag := some 1 },
       { key := some 105, fields := [105], flag := some 0 },
       { key := some 106, fields := [106], flag := some 1 },
       { key := some 107, fields := [107], flag := some 0 },
       { key := some 108, fields := [108], flag := some 1 },
       { key := some 109, fields := [109], flag := some 0 }] }

/-- A two-row dividend frame (no update_flag column) whose second row is
missing its business key. -/
def divFrameOneBad : Frame :=
  { hasFlag := false
    rows := [{ key := some 201, fields := [7], flag := none },
             { key := none, fields := [8], flag := none }] }

theorem keysOf_append (t s : List SRow) : keysOf (t ++ s) = keysOf t ++ keysOf s := by
  simp [keysOf]

theorem keysOf_cons (o : SRow) (rest : List SRow) :
    keysOf (o :: rest) = o.key :: keysOf rest := rfl

theorem any_key_beq_iff (t : List SRow) (k : Int) :
    (t.any fun o => o.key == k) = true ↔ k ∈ keysOf t := by
  simp [List.any_eq_true, keysOf, List.mem_map]

theorem lookupRow_key_of_eq_some {k : Int} {t : List SRow} {r : SRow}
    (h : lookupRow k t = some r) : r.key = k := by
  induction t with
  | nil => simp [lookupRow] at h
  | cons o rest ih =>
    by_cases hk : o.key = k
    · simp [lookupRow, hk] at h
      rw [← h]
      exact hk
    · simp [lookupRow, hk] at h
      exact ih h

theorem lookupRow_append_left {k : Int} {t : List SRow} (s : List SRow)
    (h : k ∈ keysOf t) : lookupRow k (t ++ s) = lookupRow k t := by
  induction t with
  | nil => simp [keysOf] at h
  | cons o rest ih =>
    by_cases hk : o.key = k
    · simp [lookupRow, hk]
    · have h2 : k ∈ keysOf rest := by
        rw [keysOf_cons] at h
        rcases List.mem_cons.mp h with hc | hc
        · exact absurd hc.symm hk
        · exact hc
      simp [lookupRow, hk]
      exact ih h2

theorem lookupRow_append_right {k : Int} {t : List SRow} (s : List SRow)
    (h : k ∉ keysOf t) : lookupRow k (t ++ s) = lookupRow k s := by
  induction t with
  | nil => simp
  | cons o rest ih =>
    rw [keysOf_cons] at h
    have hk : o.key ≠ k := by
      intro hc
      exact h (hc ▸ List.mem_cons_self _ _)
    have hrest : k ∉ keysOf rest := fun hc => h (List.mem_cons_of_mem _ hc)
    simp [lookupRow, hk]
    exact ih hrest

theorem mem_keysOf_iff_lookupRow {k : Int} {t : List SRow} :
    k ∈ keysOf t ↔ ∃ r, lookupRow k t = some r := by
  induction t with
  | nil => simp [keysOf, lookupRow]
  | cons o rest ih =>
    rw [keysOf_cons]
    by_cases hk : o.key = k
    · constructor
      · intro _
        exact ⟨o, by simp [lookupRow, hk]⟩
      · intro _
        exact hk ▸ List.mem_cons_self _ _
    · constructor
      · intro h
        have h2 : k ∈ keysOf rest := by
          rcases List.mem_cons.mp h with hc | hc
          · exact absurd hc.symm hk
          · exact hc
        rcases ih.mp h2 with ⟨r, hr⟩
        refine ⟨r, ?_⟩
        simp [lookupRow, hk]
        exact hr
      · rintro ⟨r, hr⟩
        simp [lookupRow, hk] at hr
        exact List.mem_cons_of_mem _ (ih.mpr ⟨r, hr⟩)

theorem insertIgnoreRow_of_mem {t : List SRow} {r : SRow}
    (h : r.key ∈ keysOf t) : insertIgnoreRow t r = t := by
  simp [insertIgnoreRow, (any_key_beq_iff t r.key).mpr h]

theorem insertIgnoreRow_of_not_mem {t : List SRow} {r : SRow}
    (h : r.key ∉ keysOf t) : insertIgnoreRow t r = t ++ [r] := by
  have : (t.any fun o => o.key == r.key) = false := by
    rw [← Bool.not_eq_true]
    intro hc
    exact h ((any_key_beq_iff t r.key).mp hc)
  simp [insertIgnoreRow, this]

theorem keysOf_insertIgnoreRow_mono {t : List SRow} {r : SRow} {k : Int}
    (h : k ∈ keysOf t) : k ∈ keysOf (insertIgnoreRow t r) := by
  by_cases hm : r.key ∈ keysOf t
  · rw [insertIgnoreRow_of_mem hm]
    exact h
  · rw [insertIgnoreRow_of_not_mem hm, keysOf_append]
    exact List.mem_append_left _ h

theorem key_mem_keysOf_insertIgnoreRow (t : List SRow) (r : SRow) :
    r.key ∈ keysOf (insertIgnoreRow t r) := by
  by_cases hm : r.key ∈ keysOf t
  · rw [insertIgnoreRow_of_mem hm]
    exact hm
  · rw [insertIgnoreRow_of_not_mem hm, keysOf_append]
    exact List.mem_append_right _ (by simp [keysOf])

theorem keysOf_insert_ignore_mono {b : List SRow} {t : List SRow} {k : Int}
    (h : k ∈ keysOf t) : k ∈ keysOf (mysql_insert_ignore t b) := by
  induction b generalizing t with
  | nil => exact h
  | cons x rest ih => exact ih (keysOf_insertIgnoreRow_mono h)

theorem key_mem_keysOf_insert_ignore {b : List SRow} {t : List SRow} {r : SRow}
    (h : r ∈ b) : r.key ∈ keysOf (mysql_insert_ignore t b) := by
  induction b generalizing t with
  | nil => simp at h
  | cons x rest ih =>
    rcases List.mem_cons.mp h with h | h
    · subst h
      show r.key ∈ keysOf (mysql_insert_ignore (insertIgnoreRow t r) rest)
      exact keysOf_insert_ignore_mono (key_mem_keysOf_insertIgnoreRow t r)
    · exact ih h

theorem insert_ignore_stable {b : List SRow} {t : List SRow}
    (h : ∀ r ∈ b, r.key ∈ keysOf t) : mysql_insert_ignore t b = t := by
  induction b with
  | nil => rfl
  | cons x rest ih =>
    have hx : insertIgnoreRow t x = t := insertIgnoreRow_of_mem (h x (by simp))
    show mysql_insert_ignore (insertIgnoreRow t x) rest = t
    rw [hx]
    exact ih (fun r hr => h r (by simp [hr]))

theorem insert_ignore_idem (t : List SRow) (b : List SRow) :
    mysql_insert_ignore (mysql_insert_ignore t b) b = mysql_insert_ignore t b :=
  insert_ignore_stable (fun _ hr => key_mem_keysOf_insert_ignore hr)

theorem lookupRow_insertIgnoreRow_of_mem {t : List SRow} {r : SRow} {k : Int}
    (h : k ∈ keysOf t) : lookupRow k (insertIgnoreRow t r) = lookupRow k t := by
  by_cases hm : r.key ∈ keysOf t
  · rw [insertIgnoreRow_of_mem hm]
  · rw [insertIgnoreRow_of_not_mem hm]
    exact lookupRow_append_left _ h

theorem lookupRow_insert_ignore_of_mem {b : List SRow} {t : List SRow} {k : Int}
    (h : k ∈ keysOf t) : lookupRow k (mysql_insert_ignore t b) = lookupRow k t := by
  induction b generalizing t with
  | nil => rfl
  | cons x rest ih =>
    show lookupRow k (mysql_insert_ignore (insertIgnoreRow t x) rest) = lookupRow k t
    rw [ih (keysOf_insertIgnoreRow_mono h), lookupRow_insertIgnoreRow_of_mem h]

theorem insert_ignore_iterate_succ (n : Nat) (t b : List SRow) :
    iterateIngest (n + 1) t b = mysql_insert_ignore t b := by
  induction n generalizing t with
  | zero => rfl
  | succ m ih =>
    show iterateIngest (m + 1) (mysql_insert_ignore t b) b = mysql_insert_ignore t b
    rw [ih (mysql_insert_ignore t b), insert_ignore_idem]

/-- C2: for a distribution (dividend) batch written through INSERT IGNORE, a
business-key collision discards the incoming row and leaves the existing row
completely unchanged; in particular ingesting key K with payload P1 and then
ingesting K again with any payload leaves the stored value P1. -/
theorem insert_ignore_first_write_wins :
    (∀ (t batch : List SRow) (k : Int), k ∈ keysOf t →
      lookupRow k (mysql_insert_ignore t batch) = lookupRow k t) ∧
    (∀ (t : List SRow) (r1 r2 : SRow), r1.key ∉ keysOf t → r2.key = r1.key →
      lookupRow r1.key (mysql_insert_ignore (mysql_insert_ignore t [r1]) [r2]) = some r1) := by
  constructor
  · intro t batch k hk
    exact lookupRow_insert_ignore_of_mem hk
  · intro t r1 r2 hnot _
    have h1 : mysql_insert_ignore t [r1] = t ++ [r1] := by
      show insertIgnoreRow t r1 = t ++ [r1]
      exact insertIgnoreRow_of_not_mem hnot
    have hmem : r1.key ∈ keysOf (t ++ [r1]) := by
      rw [keysOf_append]
      exact List.mem_append_right _ (by simp [keysOf])
    have h2 : lookupRow r1.key (t ++ [r1]) = some r1 := by
      rw [lookupRow_append_right _ hnot]
      simp [lookupRow]
    rw [h1, lookupRow_insert_ignore_of_mem hmem, h2]

/-- C2 witness: ingesting key 1 with payload [10], then re-ingesting key 1
with payload [99], stores payload [10]. -/
theorem insert_ignore_first_write_wins_witness :
    lookupRow 1 (mysql_insert_ignore
      (mysql_insert_ignore [] [{ key := 1, fields := [10], flag := 0 }])
      [{ key := 1, fields := [99], flag := 0 }]) =
      some { key := 1, fields := [10], flag := 0 } :=
  insert_ignore_first_write_wins.2 []
    { key := 1, fields := [10], flag := 0 }
    { key := 1, fields := [99], flag := 0 }
    (by simp [keysOf]) rfl

/-- C3: writing through INSERT IGNORE is idempotent: applying the same batch
n times, for any n greater than or equal to 1, yields exactly the same stored
table content as applying it once. -/
theorem insert_ignore_idempotent_iterate (n : Nat) (t b : List SRow) (h : 1 ≤ n) :
    iterateIngest n t b = mysql_insert_ignore t b := by
  obtain ⟨m, rfl⟩ : ∃ m, n = m + 1 := ⟨n - 1, by omega⟩
  exact insert_ignore_iterate_succ m t b

/-- C3 witness: three ingestions of a batch with an internal duplicate equal
one ingestion, on a concrete table. -/
theorem insert_ignore_idempotent_iterate_witness :
    1 ≤ 3 ∧
    iterateIngest 3 [{ key := 7, fields := [1], flag := 0 }]
      [{ key := 7, fields := [2], flag := 0 }, { key := 8, fields := [3], flag := 0 },
       { key := 8, fields := [4], flag := 0 }] =
    mysql_insert_ignore [{ key := 7, fields := [1], flag := 0 }]
      [{ key := 7, fields := [2], flag := 0 }, { key := 8, fields := [3], flag := 0 },
       { key := 8, fields := [4], flag := 0 }] :=
  ⟨by decide, insert_ignore_idempotent_iterate 3 _ _ (by decide)⟩

theorem zipWith_mergeCol_of_ne {v : Int} (hv : ¬v = 1) (l1 l2 : List Int)
    (h : l1.length = l2.length) : List.zipWith (mergeCol v) l1 l2 = l2 := by
  induction l1 generalizing l2 with
  | nil =>
    cases l2 with
    | nil => rfl
    | cons b l2 => simp at h
  | cons a l1 ih =>
    cases l2 with
    | nil => simp at h
    | cons b l2 =>
      simp only [List.zipWith, mergeCol, if_neg hv]
      exact congrArg (b :: ·) (ih l2 (by simpa using h))

theorem zipWith_mergeCol_of_eq {v : Int} (hv : v = 1) (l1 l2 : List Int)
    (h : l1.length = l2.length) : List.zipWith (mergeCol v) l1 l2 = l1 := by
  induction l1 generalizing l2 with
  | nil => rfl
  | cons a l1 ih =>
    cases l2 with
    | nil => simp at h
    | cons b l2 =>
      simp only [List.zipWith, mergeCol, if_pos hv]
      exact congrArg (a :: ·) (ih l2 (by simpa using h))

theorem mergeFlagged_of_flag_ne {r old : SRow} (hfl : ¬r.flag = 1)
    (hlen : r.fields.length = old.fields.length) : mergeFlagged r old = old := by
  cases old with
  | mk k f fl =>
    simp [mergeFlagged, mergeCol, hfl]
    exact zipWith_mergeCol_of_ne hfl r.fields f hlen

theorem mergeFlagged_of_flag_eq {r old : SRow} (hfl : r.flag = 1)
    (hlen : r.fields.length = old.fields.length) :
    mergeFlagged r old = { key := r.key, fields := r.fields, flag := r.flag } := by
  simp [mergeFlagged, mergeCol, hfl]
  exact zipWith_mergeCol_of_eq rfl r.fields old.fields hlen

theorem lookupRow_insertUpdateRow_some {hf : Bool} {t : List SRow} {r old : SRow}
    (h : lookupRow r.key t = some old) :
    lookupRow r.key (insertUpdateRow hf t r) =
      some (if hf then mergeFlagged r old else r) := by
  induction t with
  | nil => simp [lookupRow] at h
  | cons o rest ih =>
    by_cases hk : o.key = r.key
    · have ho : o = old := by simpa [lookupRow, hk] using h
      subst ho
      have hstep : insertUpdateRow hf (o :: rest) r =
          (if hf then mergeFlagged r o else r) :: rest := by
        simp [insertUpdateRow, hk]
      rw [hstep]
      cases hf with
      | false =>
        simp [lookupRow]
      | true =>
        by_cases hfl : r.flag = 1
        · simp [lookupRow, mergeFlagged, mergeCol, hfl]
        · simp [lookupRow, mergeFlagged, mergeCol, hfl, hk]
    · have h2 : lookupRow r.key rest = some old := by
        simpa [lookupRow, hk] using h
      have hstep : insertUpdateRow hf (o :: rest) r =
          o :: insertUpdateRow hf rest r := by
        simp [insertUpdateRow, hk]
      rw [hstep]
      simp [lookupRow, hk]
      exact ih h2

theorem lookupRow_insertUpdateRow_none {hf : Bool} {t : List SRow} {r : SRow}
    (h : lookupRow r.key t = none) :
    lookupRow r.key (insertUpdateRow hf t r) = some r := by
  induction t with
  | nil => simp [insertUpdateRow, lookupRow]
  | cons o rest ih =>
    by_cases hk : o.key = r.key
    · simp [lookupRow, hk] at h
    · have h2 : lookupRow r.key rest = none := by
        simpa [lookupRow, hk] using h
      have hstep : insertUpdateRow hf (o :: rest) r =
          o :: insertUpdateRow hf rest r := by
        simp [insertUpdateRow, hk]
      rw [hstep]
      simp [lookupRow, hk]
      exact ih h2

/-- C1: for a statement-A/statement-B table (schema with update_flag), a
business-key collision overwrites the stored data fields with the incoming
values exactly when the incoming update_flag is 1; when it is not 1, every
existing field value, the stored update_flag included, is preserved
untouched; and the resulting update_flag is computed by the same per-column
mergeCol decision as every other column, not special-cased. -/
theorem insert_update_marker_semantics (t : List SRow) (incoming existing : SRow)
    (hlook : lookupRow incoming.key t = some existing)
    (hlen : incoming.fields.length = existing.fields.length) :
    ∃ merged,
      lookupRow incoming.key (mysql_insert_update true t [incoming]) = some merged ∧
      merged.fields = (if incoming.flag = 1 then incoming.fields else existing.fields) ∧
      merged.flag = (if incoming.flag = 1 then incoming.flag else existing.flag) ∧
      merged.key = incoming.key ∧
      merged.flag = mergeCol incoming.flag incoming.flag existing.flag := by
  have hkey : existing.key = incoming.key := lookupRow_key_of_eq_some hlook
  have h1 : lookupRow incoming.key (mysql_insert_update true t [incoming]) =
      some (mergeFlagged incoming existing) := by
    show lookupRow incoming.key (insertUpdateRow true t incoming) = _
    simpa using @lookupRow_insertUpdateRow_some true _ _ _ hlook
  refine ⟨mergeFlagged incoming existing, h1, ?_, ?_, ?_, rfl⟩
  · by_cases hfl : incoming.flag = 1
    · simp [mergeFlagged, hfl, zipWith_mergeCol_of_eq rfl _ _ hlen]
    · simp [mergeFlagged, zipWith_mergeCol_of_ne hfl _ _ hlen, hfl]
  · by_cases hfl : incoming.flag = 1 <;> simp [mergeFlagged, mergeCol, hfl]
  · by_cases hfl : incoming.flag = 1 <;> simp [mergeFlagged, mergeCol, hfl, hkey]

/-- C1 witness: the spec's concrete revision-protection example: stored row
{A: 10, marker: 1}, incoming {A: 99, marker: 0}: the stored row is left
unchanged (fields [10], marker 1). -/
theorem insert_update_marker_semantics_witness :
    ∃ merged,
      lookupRow (5 : Int) (mysql_insert_update true
        [{ key := 5, fields := [10], flag := 1 }]
        [{ key := 5, fields := [99], flag := 0 }]) = some merged ∧
      merged.fields = (if (0 : Int) = 1 then [99] else [10]) ∧
      merged.flag = (if (0 : Int) = 1 then 0 else 1) ∧
      merged.key = 5 ∧
      merged.flag = mergeCol 0 0 1 :=
  insert_update_marker_semantics [{ key := 5, fields := [10], flag := 1 }]
    { key := 5, fields := [99], flag := 0 } { key := 5, fields := [10], flag := 1 }
    (by decide) (by decide)

/-- C4: for an indicator table (schema without update_flag), a business-key
collision always overwrites every field of the existing row with the incoming
value - full-row replacement - regardless of the prior stored state. -/
theorem insert_update_no_marker_overwrites (t : List SRow) (incoming existing : SRow)
    (hlook : lookupRow incoming.key t = some existing) :
    lookupRow incoming.key (mysql_insert_update false t [incoming]) = some incoming := by
  show lookupRow incoming.key (insertUpdateRow false t incoming) = _
  simpa using @lookupRow_insertUpdateRow_some false _ _ _ hlook

/-- C4 witness: re-ingesting key 3 with changed fields [99] over stored [10]
overwrites to [99]. -/
theorem insert_update_no_marker_overwrites_witness :
    lookupRow (3 : Int) (mysql_insert_update false
      [{ key := 3, fields := [10], flag := 0 }]
      [{ key := 3, fields := [99], flag := 0 }]) =
      some { key := 3, fields := [99], flag := 0 } :=
  insert_update_no_marker_overwrites [{ key := 3, fields := [10], flag := 0 }]
    { key := 3, fields := [99], flag := 0 } { key := 3, fields := [10], flag := 0 }
    (by decide)

/-- C10: for a frame destined to a table with update_flag, a row whose marker
cell is missing is normalized to marker 0 before the write; consequently, on
a business-key collision such a row never overwrites any existing field, and
when its key is absent it is inserted normally. -/
theorem missing_marker_normalized_to_zero :
    (∀ (df : Frame) (r : Row), df.hasFlag = true → r ∈ df.rows → r.flag = none →
      ({ key := r.key, fields := r.fields, flag := some 0 } : Row) ∈ (normalizeFlag df).rows) ∧
    (∀ (t : List SRow) (incoming existing : SRow), incoming.flag = 0 →
      lookupRow incoming.key t = some existing →
      incoming.fields.length = existing.fields.length →
      lookupRow incoming.key (mysql_insert_update true t [incoming]) = some existing) ∧
    (∀ (t : List SRow) (incoming : SRow), incoming.flag = 0 →
      lookupRow incoming.key t = none →
      lookupRow incoming.key (mysql_insert_update true t [incoming]) = some incoming) := by
  refine ⟨?_, ?_, ?_⟩
  · intro df r hflag hmem hnone
    have : ({ key := r.key, fields := r.fields, flag := some 0 } : Row) =
        { r with flag := some (r.flag.getD 0) } := by
      cases r with
      | mk k f fl => simp at hnone; simp [hnone]
    rw [this]
    simp [normalizeFlag, hflag]
    exact ⟨r, hmem, rfl, rfl, rfl⟩
  · intro t incoming existing hfl hlook hlen
    have h1 : lookupRow incoming.key (mysql_insert_update true t [incoming]) =
        some (mergeFlagged incoming existing) := by
      show lookupRow incoming.key (insertUpdateRow true t incoming) = _
      simpa using @lookupRow_insertUpdateRow_some true _ _ _ hlook
    rw [h1, mergeFlagged_of_flag_ne (by rw [hfl]; decide) hlen]
  · intro t incoming hfl hlook
    show lookupRow incoming.key (insertUpdateRow true t incoming) = _
    exact lookupRow_insertUpdateRow_none hlook

/-- C10 witness: a row with a missing marker becomes marker 0 after
normalization; with marker 0 a collision on key 9 preserves the stored row
and a fresh key 9 is inserted. -/
theorem missing_marker_normalized_to_zero_witness :
    ({ key := some 9, fields := [4], flag := some 0 } : Row) ∈
      (normalizeFlag
        { hasFlag := true, rows := [{ key := some 9, fields := [4], flag := none }] }).rows ∧
    lookupRow (9 : Int) (mysql_insert_update true
      [{ key := 9, fields := [10], flag := 1 }]
      [{ key := 9, fields := [99], flag := 0 }]) =
      some { key := 9, fields := [10], flag := 1 } ∧
    lookupRow (9 : Int) (mysql_insert_update true []
      [{ key := 9, fields := [99], flag := 0 }]) =
      some { key := 9, fields := [99], flag := 0 } :=
  ⟨missing_marker_normalized_to_zero.1
      { hasFlag := true, rows := [{ key := some 9, fields := [4], flag := none }] }
      { key := some 9, fields := [4], flag := none } rfl (by decide) rfl,
   missing_marker_normalized_to_zero.2.1 [{ key := 9, fields := [10], flag := 1 }]
      { key := 9, fields := [99], flag := 0 } { key := 9, fields := [10], flag := 1 }
      rfl (by decide) (by decide),
   missing_marker_normalized_to_zero.2.2 []
      { key := 9, fields := [99], flag := 0 } rfl (by decide)⟩

theorem flatten_chunksOf (n : Nat) (l : List Row) : (chunksOf n l).flatten = l := by
  by_cases h : l = []
  · subst h
    simp [chunksOf]
  · by_cases hn : n = 0
    · simp [chunksOf, h, hn]
    · rw [chunksOf.eq_def]
      simp only [if_neg h, if_neg hn, List.flatten_cons]
      rw [flatten_chunksOf n (l.drop n), List.take_append_drop]
termination_by l.length
decreasing_by
  simp only [List.length_drop]
  have hl : 0 < l.length := List.length_pos.mpr h
  have hn2 : 0 < n := Nat.pos_of_ne_zero hn
  omega

theorem foldl_method_chunks (step : List SRow → SRow → List SRow)
    (L : List (List Row)) (t : List SRow) :
    L.foldl (fun acc c => (c.filterMap toSRow).foldl step acc) t =
      (L.flatten.filterMap toSRow).foldl step t := by
  induction L generalizing t with
  | nil => rfl
  | cons c L ih =>
    simp only [List.foldl_cons, List.flatten_cons, List.filterMap_append, List.foldl_append]
    exact ih _

/-- C9: chunking is semantically transparent: for every chunk bound, table
state and batch, splitting the fetched rows into chunks and applying the
policy write per chunk in order yields exactly the stored state of one
unchunked write, for the INSERT IGNORE policy and for both variants of the
ON DUPLICATE KEY UPDATE policy. -/
theorem chunking_transparent (n : Nat) (t : List SRow) (rows : List Row) :
    ((chunksOf n rows).foldl (fun acc c => mysql_insert_ignore acc (c.filterMap toSRow)) t =
      mysql_insert_ignore t (rows.filterMap toSRow)) ∧
    (∀ hf : Bool,
      (chunksOf n rows).foldl
          (fun acc c => mysql_insert_update hf acc (c.filterMap toSRow)) t =
        mysql_insert_update hf t (rows.filterMap toSRow)) := by
  constructor
  · have h := foldl_method_chunks insertIgnoreRow (chunksOf n rows) t
    rw [flatten_chunksOf] at h
    exact h
  · intro hf
    have h := foldl_method_chunks (insertUpdateRow hf) (chunksOf n rows) t
    rw [flatten_chunksOf] at h
    exact h

theorem normalizeFlag_any_key_none {df : Frame} {r : Row} (hmem : r ∈ df.rows)
    (hkey : r.key = none) :
    ((normalizeFlag df).rows.any fun x => x.key = none) = true := by
  unfold normalizeFlag
  by_cases hF : df.hasFlag = true
  · simp only [hF, if_true]
    refine List.any_eq_true.mpr ⟨_, List.mem_map_of_mem _ hmem, ?_⟩
    simp [hkey]
  · rw [if_neg hF]
    exact List.any_eq_true.mpr ⟨r, hmem, by simp [hkey]⟩

theorem foldlM_update_error (hf : Bool) {c : List Row} {x : Row}
    (hx : x ∈ c) (hk : x.key = none) :
    ∀ (L : List (List Row)), c ∈ L → ∀ t : List SRow,
      L.foldlM (mysql_insert_update_stmt hf) t = Except.error () := by
  intro L
  induction L with
  | nil =>
    intro hc
    simp at hc
  | cons c0 rest ih =>
    intro hc t
    rcases List.mem_cons.mp hc with h | h
    · have hstop : mysql_insert_update_stmt hf t c0 = Except.error () := by
        unfold mysql_insert_update_stmt
        rw [if_pos (List.any_eq_true.mpr ⟨x, h ▸ hx, by simp [hk]⟩)]
      rw [List.foldlM_cons, hstop]
      rfl
    · cases h0 : mysql_insert_update_stmt hf t c0 with
      | error e =>
        cases e
        rw [List.foldlM_cons, h0]
        rfl
      | ok t1 =>
        rw [List.foldlM_cons, h0]
        show List.foldlM (mysql_insert_update_stmt hf) t1 rest = Except.error ()
        exact ih h t1

theorem to_sql_update_error {hf : Bool} {rows : List Row} {x : Row}
    (hx : x ∈ rows) (hk : x.key = none) (t : List SRow) :
    to_sql (mysql_insert_update_stmt hf) t rows = Except.error () := by
  unfold to_sql
  have hmf : x ∈ (chunksOf 5000 rows).flatten := by
    rw [flatten_chunksOf]
    exact hx
  obtain ⟨c, hc, hxc⟩ := List.mem_flatten.mp hmf
  exact foldlM_update_error hf hxc hk _ hc t

theorem foldlM_ignore_ok (L : List (List Row)) (t : List SRow) :
    ∃ t1, L.foldlM mysql_insert_ignore_stmt t = Except.ok t1 := by
  induction L generalizing t with
  | nil => exact ⟨t, rfl⟩
  | cons c rest ih =>
    simp only [List.foldlM_cons, mysql_insert_ignore_stmt]
    exact ih _

theorem chunksOf_eq_single {n : Nat} {l : List Row} (h0 : l ≠ []) (hn : n ≠ 0)
    (hle : l.length ≤ n) : chunksOf n l = [l] := by
  rw [chunksOf.eq_def]
  rw [if_neg h0, if_neg hn]
  rw [List.take_of_length_le hle, List.drop_eq_nil_of_le hle]
  rw [chunksOf.eq_def]
  simp

/-- C5 counterexample: a dividend batch (written through INSERT IGNORE)
containing a row with a missing business key is NOT rejected: the IGNORE
modifier downgrades the NULL-key error to a warning, the cell completes as
done, and both rows of the batch are written - the malformed one under the
key column's implicit default - contradicting the claimed atomic zero-row
rejection. -/
theorem malformed_key_dividend_written :
    (fetch_and_save_data (fun _ _ => Except.ok divFrameOneBad) emptyDB 2 Api.dividend).2.1 =
      CellResult.done ∧
    ((fetch_and_save_data (fun _ _ => Except.ok divFrameOneBad) emptyDB 2 Api.dividend).1).t_dividend =
      [{ key := 201, fields := [7], flag := 0 }, { key := 0, fields := [8], flag := 0 }] := by
  have hch : chunksOf 5000 divFrameOneBad.rows = [divFrameOneBad.rows] :=
    chunksOf_eq_single (by decide) (by decide) (by decide)
  have hts : to_sql (write_method Api.dividend (normalizeFlag divFrameOneBad).hasFlag)
      (emptyDB.table Api.dividend) (normalizeFlag divFrameOneBad).rows =
      Except.ok [{ key := 201, fields := [7], flag := 0 },
                 { key := 0, fields := [8], flag := 0 }] := by
    show to_sql mysql_insert_ignore_stmt [] divFrameOneBad.rows = _
    unfold to_sql
    rw [hch]
    rfl
  have hmain : fetch_and_save_data (fun _ _ => Except.ok divFrameOneBad) emptyDB 2 Api.dividend =
      (emptyDB.setTable Api.dividend
        [{ key := 201, fields := [7], flag := 0 }, { key := 0, fields := [8], flag := 0 }],
       CellResult.done, [Ev.fetchEv 2 Api.dividend, Ev.sleepEv]) := by
    unfold fetch_and_save_data
    simp only [hts]
    rfl
  rw [hmain]
  exact ⟨rfl, rfl⟩

/-- C5 amended: for a batch written through ON DUPLICATE KEY UPDATE (the
statement-A/statement-B/indicator record types), a row missing its business
key fails the statement (ER_BAD_NULL_ERROR) and the whole batch is rejected
atomically - the cell is recorded failed and zero rows reach the table, the
single write transaction having rolled back; a dividend batch written through
INSERT IGNORE is never rejected this way: the NULL-key error is downgraded to
a warning and the cell completes as done. -/
theorem malformed_key_batch_rejected :
    (∀ (fetch : FetchOracle) (db : DB) (ts_code : Int) (api : Api) (df : Frame) (r : Row),
      api ≠ Api.dividend →
      fetch ts_code api = Except.ok df →
      r ∈ df.rows → r.key = none →
      fetch_and_save_data fetch db ts_code api =
        (db, CellResult.failed, [Ev.fetchEv ts_code api, Ev.sleepEv])) ∧
    (∀ (fetch : FetchOracle) (db : DB) (ts_code : Int) (df : Frame),
      fetch ts_code Api.dividend = Except.ok df → df.rows ≠ [] →
      (fetch_and_save_data fetch db ts_code Api.dividend).2.1 = CellResult.done) := by
  constructor
  · intro fetch db ts_code api df r hapi hfetch hmem hkey
    have hne : df.rows ≠ [] := List.ne_nil_of_mem hmem
    have hisEmpty : df.rows.isEmpty = false := by
      cases hrows : df.rows with
      | nil => exact absurd hrows hne
      | cons a l => rfl
    have hwm : write_method api (normalizeFlag df).hasFlag =
        mysql_insert_update_stmt (normalizeFlag df).hasFlag := by
      cases api
      · rfl
      · rfl
      · rfl
      · exact absurd rfl hapi
    have hany : ((normalizeFlag df).rows.any fun x => x.key = none) = true :=
      normalizeFlag_any_key_none hmem hkey
    obtain ⟨x, hx, hxkey⟩ := List.any_eq_true.mp hany
    have herr : to_sql (write_method api (normalizeFlag df).hasFlag) (db.table api)
        (normalizeFlag df).rows = Except.error () := by
      rw [hwm]
      exact to_sql_update_error hx (of_decide_eq_true hxkey) _
    unfold fetch_and_save_data
    rw [hfetch]
    simp only [hisEmpty, Bool.false_eq_true, if_false, herr]
  · intro fetch db ts_code df hfetch hne
    have hisEmpty : df.rows.isEmpty = false := by
      cases hrows : df.rows with
      | nil => exact absurd hrows hne
      | cons a l => rfl
    obtain ⟨t1, ht1⟩ :=
      foldlM_ignore_ok (chunksOf 5000 (normalizeFlag df).rows) (db.table Api.dividend)
    have hok : to_sql (write_method Api.dividend (normalizeFlag df).hasFlag)
        (db.table Api.dividend) (normalizeFlag df).rows = Except.ok t1 := ht1
    unfold fetch_and_save_data
    rw [hfetch]
    simp only [hisEmpty, Bool.false_eq_true, if_false, hok]

/-- C5 amended witness: one malformed row among nine valid rows of an income
batch is rejected with the database unchanged (zero rows written), while a
dividend batch with a malformed row completes as done. -/
theorem malformed_key_batch_rejected_witness :
    fetch_and_save_data (fun _ _ => Except.ok frameOneBad) emptyDB 1 Api.income =
      (emptyDB, CellResult.failed, [Ev.fetchEv 1 Api.income, Ev.sleepEv]) ∧
    (fetch_and_save_data (fun _ _ => Except.ok divFrameOneBad) emptyDB 2 Api.dividend).2.1 =
      CellResult.done :=
  ⟨malformed_key_batch_rejected.1 (fun _ _ => Except.ok frameOneBad) emptyDB 1 Api.income
      frameOneBad { key := none, fields := [104], flag := some 1 }
      (by decide) rfl (by decide) rfl,
   malformed_key_batch_rejected.2 (fun _ _ => Except.ok divFrameOneBad) emptyDB 2
      divFrameOneBad rfl (by decide)⟩

theorem runCells_results_fst (fetch : FetchOracle) :
    ∀ (cells : List (Int × Api)) (db : DB),
      ((runCells fetch db cells).2.1).map Prod.fst = cells := by
  intro cells
  induction cells with
  | nil => intro db; rfl
  | cons c rest ih =>
    intro db
    simp only [runCells, List.map_cons]
    rw [ih]

theorem runCells_failed_mem (fetch : FetchOracle) :
    ∀ (cells : List (Int × Api)) (db : DB) (c : Int × Api), c ∈ cells →
      fetch c.1 c.2 = Except.error () →
      (c, CellResult.failed) ∈ (runCells fetch db cells).2.1 := by
  intro cells
  induction cells with
  | nil =>
    intro db c hc _
    simp at hc
  | cons x rest ih =>
    intro db c hc herr
    rcases List.mem_cons.mp hc with h | h
    · subst h
      have hstep : fetch_and_save_data fetch db c.1 c.2 =
          (db, CellResult.failed, [Ev.fetchEv c.1 c.2, Ev.sleepEv]) := by
        unfold fetch_and_save_data
        rw [herr]
      simp only [runCells, hstep]
      exact List.mem_cons_self _ _
    · simp only [runCells]
      exact List.mem_cons_of_mem _ (ih _ c h herr)

/-- C7: every cell of the cross product of bank codes and record types is
processed in every run, in order, whatever the per-cell fetch outcomes are;
in particular a cell whose fetch raises is merely recorded as failed and all
other cells - later record types of the same bank and the same record type
of later banks included - still appear in the results of the same run. -/
theorem per_cell_failure_isolation :
    (∀ (fetch : FetchOracle) (db : DB) (codes : List Int),
      ((runCells fetch db (crossCells codes)).2.1).map Prod.fst = crossCells codes) ∧
    (∀ (fetch : FetchOracle) (db : DB) (codes : List Int) (c : Int × Api),
      c ∈ crossCells codes → fetch c.1 c.2 = Except.error () →
      (c, CellResult.failed) ∈ (runCells fetch db (crossCells codes)).2.1) :=
  ⟨fun fetch db codes => runCells_results_fst fetch (crossCells codes) db,
   fun fetch db codes => runCells_failed_mem fetch (crossCells codes) db⟩

/-- C7 witness: with the fetch failing on bank 1 / income only, the run over
banks [1, 2] still records all eight cells, with (1, income) failed. -/
theorem per_cell_failure_isolation_witness :
    ((1, Api.income) ∈ crossCells [1, 2] ∧
      oneCellFails (1, Api.income).1 (1, Api.income).2 = Except.error ()) ∧
    ((runCells oneCellFails emptyDB (crossCells [1, 2])).2.1).map Prod.fst =
      crossCells [1, 2] ∧
    ((1, Api.income), CellResult.failed) ∈
      (runCells oneCellFails emptyDB (crossCells [1, 2])).2.1 :=
  ⟨⟨by decide, rfl⟩,
   per_cell_failure_isolation.1 oneCellFails emptyDB [1, 2],
   per_cell_failure_isolation.2 oneCellFails emptyDB [1, 2] (1, Api.income)
     (by decide) rfl⟩

theorem fetch_and_save_trace (fetch : FetchOracle) (db : DB) (c : Int) (a : Api) :
    (fetch_and_save_data fetch db c a).2.2 = [Ev.fetchEv c a, Ev.sleepEv] := by
  unfold fetch_and_save_data
  cases h : fetch c a with
  | error e => rfl
  | ok df =>
    by_cases he : df.rows.isEmpty = true
    · simp only [he, if_true]
    · simp only [he, if_false]
      cases hw : to_sql (write_method a (normalizeFlag df).hasFlag) (db.table a)
          (normalizeFlag df).rows with
      | error e =>
        simp only [hw]
        rfl
      | ok t1 =>
        simp only [hw]
        rfl

theorem runCells_trace_cons (fetch : FetchOracle) (db : DB) (x : Int × Api)
    (rest : List (Int × Api)) :
    (runCells fetch db (x :: rest)).2.2 =
      Ev.fetchEv x.1 x.2 :: Ev.sleepEv ::
        (runCells fetch (fetch_and_save_data fetch db x.1 x.2).1 rest).2.2 := by
  show ((fetch_and_save_data fetch db x.1 x.2).2.2 ++ _) = _
  rw [fetch_and_save_trace]
  rfl

theorem runCells_trace_sleep_before_fetch (fetch : FetchOracle) :
    ∀ (cells : List (Int × Api)) (db : DB) (i : Nat) (c : Int) (a : Api),
      ((runCells fetch db cells).2.2)[i + 1]? = some (Ev.fetchEv c a) →
      ((runCells fetch db cells).2.2)[i]? = some Ev.sleepEv := by
  intro cells
  induction cells with
  | nil =>
    intro db i c a h
    simp [runCells] at h
  | cons x rest ih =>
    intro db i c a h
    rw [runCells_trace_cons] at h ⊢
    match i with
    | 0 => simp at h
    | 1 => simp
    | Nat.succ (Nat.succ k) =>
      simp only [List.getElem?_cons_succ] at h ⊢
      exact ih _ k c a h

/-- C8: every branch of a cell - fetch failure, empty frame, write failure or
success - ends with the fixed rate-limit pause (the finally sleep), and in
the event trace of a whole driver run every external fetch other than the
very first is immediately preceded by a sleep: no path issues a next fetch
without the pause having occurred. -/
theorem rate_limit_pause_between_fetches :
    (∀ (fetch : FetchOracle) (db : DB) (c : Int) (a : Api),
      (fetch_and_save_data fetch db c a).2.2 = [Ev.fetchEv c a, Ev.sleepEv]) ∧
    (∀ (fetch : FetchOracle) (db : DB) (codes : List Int) (i : Nat) (c : Int) (a : Api),
      ((runCells fetch db (crossCells codes)).2.2)[i + 1]? = some (Ev.fetchEv c a) →
      ((runCells fetch db (crossCells codes)).2.2)[i]? = some Ev.sleepEv) :=
  ⟨fetch_and_save_trace,
   fun fetch db codes => runCells_trace_sleep_before_fetch fetch (crossCells codes) db⟩

/-- C8 witness: in the concrete run over bank [1] with every fetch failing,
the second fetch (cell (1, balancesheet), trace position 2) is immediately
preceded by a sleep at position 1. -/
theorem rate_limit_pause_between_fetches_witness :
    ((runCells failFetch emptyDB (crossCells [1])).2.2)[2]? =
      some (Ev.fetchEv 1 Api.balancesheet) ∧
    ((runCells failFetch emptyDB (crossCells [1])).2.2)[1]? = some Ev.sleepEv :=
  ⟨by decide,
   rate_limit_pause_between_fetches.2 failFetch emptyDB [1] 1 1 Api.balancesheet (by decide)⟩

/-- C6 counterexample: with initialization succeeding and the registry lookup
failing, the run stops before processing any cell - yet the process exit code
is 0, not the non-zero code the claim requires for a fatal initialization
failure. -/
theorem registry_failure_exit_code_zero :
    (run_fetcher true (Except.error ()) failFetch emptyDB).exitCode = 0 ∧
    (run_fetcher true (Except.error ()) failFetch emptyDB).results = [] := by
  constructor
  · rfl
  · rfl

/-- C6 amended: a registry lookup failure is absorbed by get_bank_codes into
an empty code list, so the run does stop before processing any cell, but the
process exits with code 0 - the same code as a completed run. Exit code 1
arises exactly when the initialization block (configuration load, client and
engine construction, connection test) fails, and the exit code never depends
on per-cell fetch outcomes. -/
theorem exit_code_semantics (registry : Except Unit (List Int))
    (fetch fetch2 : FetchOracle) (db : DB) :
    (run_fetcher false registry fetch db).exitCode = 1 ∧
    (run_fetcher true registry fetch db).exitCode = 0 ∧
    (registry = Except.error () →
      run_fetcher true registry fetch db =
        { exitCode := 0, results := [], trace := [], db := db }) ∧
    (∀ initOk : Bool, (run_fetcher initOk registry fetch db).exitCode =
      (run_fetcher initOk registry fetch2 db).exitCode) := by
  have hexit0 : ∀ f : FetchOracle, (run_fetcher true registry f db).exitCode = 0 := by
    intro f
    unfold run_fetcher
    simp only [Bool.true_eq_false, if_false]
    by_cases h : (get_bank_codes registry).isEmpty = true
    · rw [if_pos h]
    · rw [if_neg h]
  refine ⟨rfl, hexit0 fetch, ?_, ?_⟩
  · intro h
    subst h
    rfl
  · intro initOk
    cases initOk with
    | false => rfl
    | true => rw [hexit0 fetch, hexit0 fetch2]

/-- C6 amended witness: at the concrete failing-registry input, the run
terminates with exit code 0 and an empty result list. -/
theorem exit_code_semantics_witness :
    run_fetcher true (Except.error ()) failFetch emptyDB =
      { exitCode := 0, results := [], trace := [], db := emptyDB } :=
  (exit_code_semantics (Except.error ()) failFetch failFetch emptyDB).2.2.1 rfl

end BankFetch
